import Mathlib

/-!
Verification of the agent-hub frontend stores against their specification.

The development shallowly embeds the Pinia stores of the repository:
the tools store (catalog slice management and search filtering) and the
servers store (connection lifecycle, OAuth flow, removal, status updates).
Backend invocations (`invoke(...)`) are modelled by an explicit
`Except String _` result passed to each operation; `await` points are
sequentialized, so an operation's full effect is applied at its call site.
-/

namespace AgentHub

/-- `segAt pat hay`: `pat` occurs at the front of `hay`. -/
def segAt [BEq α] : List α → List α → Bool
  | [], _ => true
  | _ :: _, [] => false
  | p :: ps, h :: hs => p == h && segAt ps hs

/-- `hasSeg pat hay`: `pat` occurs contiguously somewhere in `hay`. -/
def hasSeg [BEq α] (pat : List α) : List α → Bool
  | [] => pat.isEmpty
  | h :: hs => segAt pat (h :: hs) || hasSeg pat hs

/-- JS `hay.includes(pat)`: `pat` occurs as a contiguous substring of `hay`. -/
def strIncludes (hay pat : String) : Bool :=
  hasSeg pat.toList hay.toList

/-- JS `s.toLowerCase()`, character by character. -/
def strToLower (s : String) : String :=
  ⟨s.data.map Char.toLower⟩

/-- Split a character list on whitespace, accumulating the current word. -/
def splitWsAux : List Char → List Char → List String
  | [], acc => [⟨acc.reverse⟩]
  | c :: cs, acc =>
    if c.isWhitespace then ⟨acc.reverse⟩ :: splitWsAux cs []
    else splitWsAux cs (c :: acc)

/-- The nonempty whitespace-separated tokens of a string. -/
def splitWs (s : String) : List String :=
  (splitWsAux s.data []).filter (fun w => w ≠ "")

/-- `McpTool`: the type file `@/types/mcp` is absent from the sources; fields
are those the tools store reads (`name`, optional `description`, `serverId`,
`serverName`). -/
structure McpTool where
  name : String
  description : Option String
  serverId : String
  serverName : String
deriving DecidableEq

/-- State of the tools store: the flat catalog list and the search query. -/
structure ToolsState where
  tools : List McpTool
  searchQuery : String
deriving DecidableEq

/-- One tool's match test used by `filteredTools`: the (already lowercased)
query must be a substring of the lowercased name, description (when present),
or server name — OR across the three fields. -/
def toolMatches (q : String) (t : McpTool) : Bool :=
  strIncludes (strToLower t.name) q ||
  (match t.description with
   | some d => strIncludes (strToLower d) q
   | none => false) ||
  strIncludes (strToLower t.serverName) q

/-- `filteredTools` computed property of the tools store: a falsy (empty)
query returns the whole list; otherwise the entire lowercased query is
matched as one substring against each tool's fields. -/
def filteredTools (st : ToolsState) : List McpTool :=
  if st.searchQuery = "" then st.tools
  else st.tools.filter (toolMatches (strToLower st.searchQuery))

/-- `setTools(serverId, newTools)`: drop the old slice for that server, then
append the new tools. -/
def setTools (serverId : String) (newTools : List McpTool) (st : ToolsState) :
    ToolsState :=
  { st with tools := st.tools.filter (fun t => t.serverId != serverId) ++ newTools }

/-- `clearToolsForServer(serverId)`: drop every tool owned by that server. -/
def clearToolsForServer (serverId : String) (st : ToolsState) : ToolsState :=
  { st with tools := st.tools.filter (fun t => t.serverId != serverId) }

/-- `fetchTools(serverId)`: on a successful `list_tools` invocation replace the
server's slice; on failure the store is left as-is (the catch swallows the
error). -/
def fetchTools (serverId : String) (result : Except String (List McpTool))
    (st : ToolsState) : ToolsState :=
  match result with
  | .ok serverTools => setTools serverId serverTools st
  | .error _ => st

/-- The search rule in the spec's words, for comparison with `filteredTools`:
tokenize the query on whitespace and keep the entries for which every token
matches case-insensitively against name, description, or backend name
(AND across tokens, OR across fields); an empty query yields an empty
sequence. -/
def searchSpec (st : ToolsState) : List McpTool :=
  if st.searchQuery = "" then []
  else
    let tokens := splitWs st.searchQuery
    st.tools.filter (fun t => tokens.all (fun tok => toolMatches (strToLower tok) t))

/-- `ServerConfig`: the type file `@/types/server` is absent from the sources;
fields are those the servers store reads and writes. `status` is an optional
string, as in TS where the field may be `undefined`. -/
structure ServerConfig where
  id : String
  name : String
  enabled : Bool
  status : Option String
deriving DecidableEq

/-- State of the servers store. `lastError` and `oauthStatus` model the TS
`Record<string, string>` objects as partial maps. -/
structure ServersState where
  servers : List ServerConfig
  selectedServerId : Option String
  lastError : String → Option String
  oauthStatus : String → Option String

/-- `servers.value.find(s => s.id === id)` followed by an in-place field
mutation: rewrite the first list element satisfying `p`, leaving the rest. -/
def updateFirst (p : α → Bool) (f : α → α) : List α → List α
  | [] => []
  | x :: xs => if p x then f x :: xs else x :: updateFirst p f xs

/-- `server.status = v`. -/
def setStatus (v : String) (s : ServerConfig) : ServerConfig :=
  { s with status := some v }

/-- `setError(serverId, error)`. -/
def setError (serverId err : String) (st : ServersState) : ServersState :=
  { st with lastError := fun k => if k = serverId then some err else st.lastError k }

/-- `clearError(serverId)`. -/
def clearError (serverId : String) (st : ServersState) : ServersState :=
  { st with lastError := fun k => if k = serverId then none else st.lastError k }

/-- `setOAuthStatus(serverId, status)` / direct `oauthStatus.value[id] = v`. -/
def setOAuthStatus (serverId status : String) (st : ServersState) : ServersState :=
  { st with oauthStatus := fun k => if k = serverId then some status else st.oauthStatus k }

/-- `clearOAuthStatus(serverId)` / direct `delete oauthStatus.value[id]`. -/
def clearOAuthStatus (serverId : String) (st : ServersState) : ServersState :=
  { st with oauthStatus := fun k => if k = serverId then none else st.oauthStatus k }

/-- `loadServers()`: on success replace the whole list with the
backend-supplied one; on failure the catch leaves the store unchanged. -/
def loadServers (result : Except String (List ServerConfig))
    (st : ServersState) : ServersState :=
  match result with
  | .ok list => { st with servers := list }
  | .error _ => st

/-- `connectServer(id)`: clear the previous error, mark the found server
`connecting`, then invoke `connect_server` once; on failure record the error
message and mark the server `error`. The second component lists the connect
invocations issued (always exactly the one). -/
def connectServer (id : String) (result : Except String Unit) (st : ServersState) :
    ServersState × List String :=
  let st1 := clearError id st
  let st2 := { st1 with
    servers := updateFirst (fun s => s.id == id) (setStatus "connecting") st1.servers }
  match result with
  | .ok _ => (st2, [id])
  | .error e =>
    let st3 := setError id e st2
    let st4 := { st3 with
      servers := updateFirst (fun s => s.id == id) (setStatus "error") st3.servers }
    (st4, [id])

/-- `disconnectServer(id)`: invokes `disconnect_server` and swallows any
failure; it touches no store state itself (status changes arrive via events). -/
def disconnectServer (_result : Except String Unit) (st : ServersState) :
    ServersState :=
  st

/-- `addServer(input)`: on success push the server returned by the backend,
select it, and auto-connect it (one `connectServer` call, whose invocation
result is `connectResult`); on failure the error is re-thrown with the store
unchanged. -/
def addServer (result : Except String ServerConfig)
    (connectResult : Except String Unit) (st : ServersState) :
    ServersState × List String :=
  match result with
  | .error _ => (st, [])
  | .ok server =>
    let st1 := { st with
      servers := st.servers ++ [server]
      selectedServerId := some server.id }
    connectServer server.id connectResult st1

/-- `updateServer(id, input)`: on success replace the first server whose id
matches with the backend's updated config; on failure the error is re-thrown
with the store unchanged. -/
def updateServer (id : String) (result : Except String ServerConfig)
    (st : ServersState) : ServersState :=
  match result with
  | .error _ => st
  | .ok updated =>
    { st with servers := updateFirst (fun s => s.id == id) (fun _ => updated) st.servers }

/-- `clearOAuthTokens(id)`: on success drop the backend's OAuth state; on
failure the catch leaves the store unchanged. -/
def clearOAuthTokens (id : String) (result : Except String Unit)
    (st : ServersState) : ServersState :=
  match result with
  | .ok _ => clearOAuthStatus id st
  | .error _ => st

/-- `removeServer(id)`: on success filter the server out and, when it was the
selected one, select the first remaining server (or none); on failure the
error is swallowed and the store is unchanged. -/
def removeServer (id : String) (result : Except String Unit) (st : ServersState) :
    ServersState :=
  match result with
  | .error _ => st
  | .ok _ =>
    let servers' := st.servers.filter (fun s => s.id != id)
    { st with
      servers := servers'
      selectedServerId :=
        if st.selectedServerId = some id then servers'.head?.map (fun s => s.id)
        else st.selectedServerId }

/-- `startOAuth(id)`: set the OAuth state to `discovering`, clear the previous
error, invoke `start_oauth_flow`; on failure set the OAuth state to `error`
and record the message. -/
def startOAuth (id : String) (result : Except String Unit) (st : ServersState) :
    ServersState :=
  let st1 := setOAuthStatus id "discovering" st
  let st2 := clearError id st1
  match result with
  | .ok _ => st2
  | .error e => setError id e (setOAuthStatus id "error" st2)

/-- `updateServerStatus(id, status)`. -/
def updateServerStatus (id status : String) (st : ServersState) : ServersState :=
  { st with
    servers := updateFirst (fun s => s.id == id) (setStatus status) st.servers }

/-- `selectServer(id)`. -/
def selectServer (id : String) (st : ServersState) : ServersState :=
  { st with selectedServerId := some id }

/-- The guard in `autoConnectServers`: `!server.status || server.status ===
'disconnected'` — a falsy (absent or empty) status, or `'disconnected'`. -/
def statusFresh : Option String → Bool
  | none => true
  | some v => v == "" || v == "disconnected"

/-- The `for (const server of servers.value)` loop of `autoConnectServers`,
walking positions `i, i+1, …` with `n` positions left. Each qualifying server
gets one `connectServer` call, whose effect is applied before the next
iteration reads the list. -/
def autoConnectGo (results : String → Except String Unit) :
    Nat → Nat → ServersState → ServersState × List String
  | _, 0, st => (st, [])
  | i, n + 1, st =>
    match st.servers[i]? with
    | none => autoConnectGo results (i + 1) n st
    | some s =>
      if s.enabled && statusFresh s.status then
        let p := connectServer s.id (results s.id) st
        let q := autoConnectGo results (i + 1) n p.1
        (q.1, p.2 ++ q.2)
      else autoConnectGo results (i + 1) n st

/-- `autoConnectServers()`: connect every enabled, not-yet-connected server. -/
def autoConnectServers (results : String → Except String Unit)
    (st : ServersState) : ServersState × List String :=
  autoConnectGo results 0 st.servers.length st

/-- Modelled from the spec: the `ServerStatus` union type (its file
`@/types/server` is absent from the sources). "Runtime state: {Disconnected,
Connecting, Connected, Error, AwaitingAuthorization} — exactly one at a
time." -/
def validStatusStr (v : String) : Bool :=
  v == "disconnected" || v == "connecting" || v == "connected" ||
  v == "error" || v == "awaiting_authorization"

/-- The status shown for a server: `server.status ?? 'disconnected'`. -/
def displayedStatus (s : ServerConfig) : String :=
  s.status.getD "disconnected"

/-- Every stored status string is one of the defined runtime states. -/
def statusWF (st : ServersState) : Prop :=
  ∀ s ∈ st.servers, Option.all validStatusStr s.status = true

/-- One observable operation of the servers store. Where an operation writes
backend-supplied `ServerConfig` data into `servers.value` (`loadServers`,
`addServer`, `updateServer`) or a status payload (`updateServerStatus`), the
constructor carries the proof that the supplied statuses are defined states,
which in TS is enforced by the `ServerStatus` type of the payload. -/
inductive StoreStep : ServersState → ServersState → Prop
  | connect (id : String) (r : Except String Unit) (st : ServersState) :
      StoreStep st (connectServer id r st).1
  | auto (results : String → Except String Unit) (st : ServersState) :
      StoreStep st (autoConnectServers results st).1
  | disconnect (r : Except String Unit) (st : ServersState) :
      StoreStep st (disconnectServer r st)
  | load (r : Except String (List ServerConfig)) (st : ServersState)
      (h : ∀ l, r = .ok l → ∀ s ∈ l, Option.all validStatusStr s.status = true) :
      StoreStep st (loadServers r st)
  | add (r : Except String ServerConfig) (cr : Except String Unit)
      (st : ServersState)
      (h : ∀ server, r = .ok server →
        Option.all validStatusStr server.status = true) :
      StoreStep st (addServer r cr st).1
  | update (id : String) (r : Except String ServerConfig) (st : ServersState)
      (h : ∀ u, r = .ok u → Option.all validStatusStr u.status = true) :
      StoreStep st (updateServer id r st)
  | remove (id : String) (r : Except String Unit) (st : ServersState) :
      StoreStep st (removeServer id r st)
  | select (id : String) (st : ServersState) :
      StoreStep st (selectServer id st)
  | oauth (id : String) (r : Except String Unit) (st : ServersState) :
      StoreStep st (startOAuth id r st)
  | updateStatus (id v : String) (st : ServersState)
      (h : validStatusStr v = true) :
      StoreStep st (updateServerStatus id v st)
  | err (id e : String) (st : ServersState) :
      StoreStep st (setError id e st)
  | clearErr (id : String) (st : ServersState) :
      StoreStep st (clearError id st)
  | setOAuth (id v : String) (st : ServersState) :
      StoreStep st (setOAuthStatus id v st)
  | clearOAuth (id : String) (st : ServersState) :
      StoreStep st (clearOAuthStatus id st)
  | clearTokens (id : String) (r : Except String Unit) (st : ServersState) :
      StoreStep st (clearOAuthTokens id r st)

/-- A sample catalog entry used by concrete witnesses. -/
def sampleTool : McpTool :=
  { name := "alpha", description := none, serverId := "s1", serverName := "Server One" }

/-- A sample entry whose name and server name match different search tokens. -/
def searchTool : McpTool :=
  { name := "fetch", description := none, serverId := "docs", serverName := "Docs Server" }

/-- An empty servers-store state used by concrete witnesses. -/
def emptyServersState : ServersState :=
  { servers := [], selectedServerId := none,
    lastError := fun _ => none, oauthStatus := fun _ => none }

/-- A sample server configuration used by concrete witnesses. -/
def cfgA : ServerConfig :=
  { id := "a", name := "Server A", enabled := true, status := none }

/-- A one-server store state used by concrete witnesses. -/
def stA : ServersState :=
  { servers := [cfgA], selectedServerId := none,
    lastError := fun _ => none, oauthStatus := fun _ => none }

theorem filter_filter_of_imp {α : Type} {p q : α → Bool}
    (h : ∀ a, p a = true → q a = true) :
    ∀ l : List α, (l.filter q).filter p = l.filter p := by
  intro l
  induction l with
  | nil => rfl
  | cons x xs ih =>
    cases hp : p x
    · cases hq : q x <;> simp [List.filter_cons, hq, hp, ih]
    · have hq := h x hp
      simp [List.filter_cons, hq, hp, ih]

theorem filter_filter_none {α : Type} {p q : α → Bool}
    (h : ∀ a, q a = true → p a = false) :
    ∀ l : List α, (l.filter q).filter p = [] := by
  intro l
  induction l with
  | nil => rfl
  | cons x xs ih =>
    cases hq : q x
    · simp [List.filter_cons, hq, ih]
    · simp [List.filter_cons, hq, h x hq, ih]

/-- C1: the claim as stated is false on the code: with a nonempty catalog and
an empty query, `filteredTools` returns the whole catalog, not an empty
sequence. -/
theorem c1_empty_query_counterexample :
    filteredTools { tools := [sampleTool], searchQuery := "" } ≠ [] := by decide

/-- C1 (amended): an empty query returns the entire catalog; a nonempty query
matching no entry returns an empty sequence; neither raises an error. -/
theorem filteredTools_empty_and_no_match (st : ToolsState)
    (hq : st.searchQuery ≠ "")
    (hnone : ∀ t ∈ st.tools, toolMatches (strToLower st.searchQuery) t = false) :
    filteredTools st = [] ∧
    filteredTools { st with searchQuery := "" } = st.tools := by
  constructor
  · simp only [filteredTools, if_neg hq]
    exact List.filter_eq_nil_iff.mpr fun t ht => by simp [hnone t ht]
  · simp [filteredTools]

theorem filteredTools_empty_and_no_match_witness :
    filteredTools { tools := [sampleTool], searchQuery := "zzz" } = [] ∧
    filteredTools { tools := [sampleTool], searchQuery := "" } = [sampleTool] := by
  have h := filteredTools_empty_and_no_match
    { tools := [sampleTool], searchQuery := "zzz" } (by decide) (by decide)
  exact ⟨h.1, h.2⟩

/-- C2: the claim as stated is false on the code: `filteredTools` does not
tokenize on whitespace, so a two-token query whose tokens match different
fields of the same entry misses it, unlike the spec's AND-of-tokens rule. -/
theorem c2_tokenization_counterexample :
    filteredTools { tools := [searchTool], searchQuery := "fetch docs" } ≠
      searchSpec { tools := [searchTool], searchQuery := "fetch docs" } := by decide

/-- C2 (amended): for every state and nonempty query, the search returns
exactly the entries for which the entire lowercased query occurs as a
case-insensitive substring of the entry's name, its description, or its
owning backend's display name — OR across the three fields, no whitespace
tokenization. -/
theorem filteredTools_whole_query (st : ToolsState) (hq : st.searchQuery ≠ "") :
    filteredTools st = st.tools.filter (toolMatches (strToLower st.searchQuery)) ∧
    ∀ t, t ∈ filteredTools st ↔
      t ∈ st.tools ∧ toolMatches (strToLower st.searchQuery) t = true := by
  have he : filteredTools st =
      st.tools.filter (toolMatches (strToLower st.searchQuery)) := by
    simp [filteredTools, hq]
  exact ⟨he, fun t => by rw [he, List.mem_filter]⟩

theorem filteredTools_whole_query_witness :
    searchTool ∈ filteredTools { tools := [searchTool], searchQuery := "fetch" } :=
  ((filteredTools_whole_query { tools := [searchTool], searchQuery := "fetch" }
      (by decide)).2 searchTool).mpr ⟨by decide, by decide⟩

/-- C3: `setTools(b, E)` with every entry of `E` owned by `b` leaves exactly
`E` as backend `b`'s slice (nothing of the previous slice survives) and keeps
every other backend's slice unchanged. -/
theorem setTools_replaces_backend_slice (b : String) (E : List McpTool)
    (st : ToolsState) (hE : ∀ e ∈ E, e.serverId = b) :
    (setTools b E st).tools.filter (fun t => t.serverId == b) = E ∧
    ∀ c, c ≠ b →
      (setTools b E st).tools.filter (fun t => t.serverId == c) =
        st.tools.filter (fun t => t.serverId == c) := by
  have hb : ∀ a : McpTool, (a.serverId != b) = true → (a.serverId == b) = false := by
    intro a ha
    simp only [bne_iff_ne, ne_eq] at ha
    simp [ha]
  constructor
  · simp only [setTools, List.filter_append]
    rw [filter_filter_none hb st.tools, List.nil_append]
    exact List.filter_eq_self.mpr fun e he => by simp [hE e he]
  · intro c hc
    simp only [setTools, List.filter_append]
    have hcE : E.filter (fun t => t.serverId == c) = [] := by
      refine List.filter_eq_nil_iff.mpr fun e he => ?_
      have hne : c ≠ b := hc
      simp [hE e he]
      exact fun h => hne h.symm
    have himp : ∀ a : McpTool, (a.serverId == c) = true → (a.serverId != b) = true := by
      intro a ha
      have hac : a.serverId = c := by simpa using ha
      simp [bne_iff_ne, hac, hc]
    rw [hcE, List.append_nil, filter_filter_of_imp himp st.tools]

theorem setTools_replaces_backend_slice_witness :
    (setTools "s1" [sampleTool] { tools := [searchTool], searchQuery := "" }).tools.filter
      (fun t => t.serverId == "s1") = [sampleTool] :=
  (setTools_replaces_backend_slice "s1" [sampleTool]
    { tools := [searchTool], searchQuery := "" } (by decide)).1

/-- C4: clearing a backend's catalog slice is idempotent and removes every
entry owned by that backend, and `disconnectServer` never surfaces an error:
whatever the invocation result, it returns normally with the store unchanged. -/
theorem clearTools_idempotent_and_disconnect_total (b : String) (ts : ToolsState)
    (r : Except String Unit) (st : ServersState) :
    clearToolsForServer b (clearToolsForServer b ts) = clearToolsForServer b ts ∧
    (∀ t ∈ (clearToolsForServer b ts).tools, t.serverId ≠ b) ∧
    disconnectServer r st = st := by
  refine ⟨?_, ?_, rfl⟩
  · simp only [clearToolsForServer]
    rw [filter_filter_of_imp (fun a ha => ha) ts.tools]
  · intro t ht
    have h := (List.mem_filter.mp ht).2
    simpa [bne_iff_ne] using h

theorem clearTools_idempotent_witness : sampleTool.serverId ≠ "other" :=
  (clearTools_idempotent_and_disconnect_total "other"
      { tools := [sampleTool], searchQuery := "" } (.ok ()) emptyServersState).2.1
    sampleTool (by decide)

/-- C7: when the `list_tools` invocation fails, `fetchTools` leaves the
catalog exactly unchanged — every backend's slice included — and no error
propagates (the operation returns normally). -/
theorem fetchTools_failure_preserves_catalog (serverId e : String) (st : ToolsState) :
    fetchTools serverId (.error e) st = st ∧
    ∀ b, (fetchTools serverId (.error e) st).tools.filter (fun t => t.serverId == b) =
      st.tools.filter (fun t => t.serverId == b) :=
  ⟨rfl, fun _ => rfl⟩

theorem updateFirst_map_eq {α β : Type} (p : α → Bool) (f : α → α) (g : α → β)
    (hf : ∀ a, g (f a) = g a) :
    ∀ l : List α, (updateFirst p f l).map g = l.map g := by
  intro l
  induction l with
  | nil => rfl
  | cons x xs ih => cases hx : p x <;> simp [updateFirst, hx, hf, ih]

theorem find?_updateFirst {α : Type} (p : α → Bool) (f : α → α)
    (hf : ∀ a, p (f a) = p a) :
    ∀ l : List α, (updateFirst p f l).find? p = (l.find? p).map f := by
  intro l
  induction l with
  | nil => rfl
  | cons x xs ih =>
    cases hx : p x
    · have h1 : updateFirst p f (x :: xs) = x :: updateFirst p f xs := by
        simp [updateFirst, hx]
      rw [h1, List.find?_cons_of_neg _ (by simp [hx]),
        List.find?_cons_of_neg _ (by simp [hx]), ih]
    · have h1 : updateFirst p f (x :: xs) = f x :: xs := by
        simp [updateFirst, hx]
      rw [h1, List.find?_cons_of_pos _ (by simp [hf, hx]),
        List.find?_cons_of_pos _ (by simp [hx])]
      rfl

theorem updateFirst_comp {α : Type} (p : α → Bool) (f g : α → α)
    (hf : ∀ a, p (f a) = p a) :
    ∀ l : List α, updateFirst p g (updateFirst p f l) =
      updateFirst p (fun a => g (f a)) l := by
  intro l
  induction l with
  | nil => rfl
  | cons x xs ih => cases hx : p x <;> simp [updateFirst, hx, hf, ih]

theorem getElem?_updateFirst_stable {α : Type} (p : α → Bool) (f : α → α) :
    ∀ (l : List α) (j m : Nat), m < j → l[m]?.map p = some true →
      (updateFirst p f l)[j]? = l[j]? := by
  intro l
  induction l with
  | nil => intro j m _ hm; simp at hm
  | cons x xs ih =>
    intro j m hmj hm
    cases hx : p x
    · have h1 : updateFirst p f (x :: xs) = x :: updateFirst p f xs := by
        simp [updateFirst, hx]
      rw [h1]
      cases m with
      | zero => rw [List.getElem?_cons_zero] at hm; simp [hx] at hm
      | succ m' =>
        cases j with
        | zero => omega
        | succ j' =>
          rw [List.getElem?_cons_succ, List.getElem?_cons_succ]
          exact ih j' m' (by omega) (by rwa [List.getElem?_cons_succ] at hm)
    · have h1 : updateFirst p f (x :: xs) = f x :: xs := by
        simp [updateFirst, hx]
      rw [h1]
      cases j with
      | zero => omega
      | succ j' => rw [List.getElem?_cons_succ, List.getElem?_cons_succ]

theorem connectServer_calls (id : String) (r : Except String Unit)
    (st : ServersState) : (connectServer id r st).2 = [id] := by
  cases r <;> rfl

theorem connectServer_servers_eq (id : String) (r : Except String Unit)
    (st : ServersState) :
    ∃ v, validStatusStr v = true ∧
      (connectServer id r st).1.servers =
        updateFirst (fun s => s.id == id) (setStatus v) st.servers := by
  cases r with
  | ok _ => exact ⟨"connecting", by decide, rfl⟩
  | error e =>
    refine ⟨"error", by decide, ?_⟩
    show updateFirst _ (setStatus "error")
      (updateFirst _ (setStatus "connecting") st.servers) = _
    rw [updateFirst_comp (fun s => s.id == id) (setStatus "connecting")
      (setStatus "error") (fun a => rfl) st.servers]
    rfl

/-- C5: when the connect invocation fails for a server present in the store,
`connectServer` leaves that server's status equal to `error`, records the
failure reason under its id in `lastError`, and issues exactly one connect
invocation — no automatic retry. -/
theorem connectServer_failure_marks_error (id e : String) (st : ServersState)
    (s : ServerConfig)
    (hs : st.servers.find? (fun t => t.id == id) = some s) :
    ((connectServer id (.error e) st).1.servers.find? (fun t => t.id == id)).map
        (fun t => t.status) = some (some "error") ∧
    (connectServer id (.error e) st).1.lastError id = some e ∧
    (connectServer id (.error e) st).2 = [id] := by
  refine ⟨?_, ?_, rfl⟩
  · have hsv : (connectServer id (.error e) st).1.servers =
        updateFirst (fun t => t.id == id) (setStatus "error") st.servers := by
      show updateFirst _ (setStatus "error")
        (updateFirst _ (setStatus "connecting") st.servers) = _
      rw [updateFirst_comp (fun t => t.id == id) (setStatus "connecting")
        (setStatus "error") (fun a => rfl) st.servers]
      rfl
    rw [hsv, find?_updateFirst (fun t => t.id == id) (setStatus "error")
      (fun a => rfl) st.servers, hs]
    rfl
  · simp [connectServer, setError, clearError]

theorem connectServer_failure_witness :
    ((connectServer "a" (.error "boom") stA).1.servers.find?
        (fun t => t.id == "a")).map (fun t => t.status) = some (some "error") ∧
    (connectServer "a" (.error "boom") stA).1.lastError "a" = some "boom" ∧
    (connectServer "a" (.error "boom") stA).2 = ["a"] :=
  connectServer_failure_marks_error "a" "boom" stA cfgA (by decide)

/-- C8: `startOAuth(id)` sets backend `id`'s OAuth state to `discovering` when
the flow begins (and that is the end state when the invocation succeeds); on
failure it sets that backend's OAuth state to `error` and records the failure
reason; in every case it leaves every other backend's OAuth state unchanged. -/
theorem startOAuth_states (id : String) (st : ServersState) :
    (startOAuth id (.ok ()) st).oauthStatus id = some "discovering" ∧
    (∀ e, (startOAuth id (.error e) st).oauthStatus id = some "error" ∧
      (startOAuth id (.error e) st).lastError id = some e) ∧
    (∀ r j, j ≠ id → (startOAuth id r st).oauthStatus j = st.oauthStatus j) := by
  refine ⟨?_, fun e => ⟨?_, ?_⟩, fun r j hj => ?_⟩
  · simp [startOAuth, setOAuthStatus, clearError]
  · simp [startOAuth, setOAuthStatus, clearError, setError]
  · simp [startOAuth, setOAuthStatus, clearError, setError]
  · cases r <;> simp [startOAuth, setOAuthStatus, clearError, setError, hj]

theorem startOAuth_states_witness :
    (startOAuth "a" (.ok ()) stA).oauthStatus "b" = stA.oauthStatus "b" :=
  (startOAuth_states "a" stA).2.2 (.ok ()) "b" (by decide)

/-- C10: on a successful remove, no server with the removed id remains and,
when the removed id was selected, the selection moves to the first remaining
server (or to none when the list is empty); when the remove invocation fails,
the list and selection are unchanged and no error propagates. -/
theorem removeServer_spec (id e : String) (st : ServersState) :
    (∀ s ∈ (removeServer id (.ok ()) st).servers, s.id ≠ id) ∧
    (st.selectedServerId = some id →
      (removeServer id (.ok ()) st).selectedServerId =
        (st.servers.filter (fun s => s.id != id)).head?.map (fun s => s.id)) ∧
    (st.selectedServerId ≠ some id →
      (removeServer id (.ok ()) st).selectedServerId = st.selectedServerId) ∧
    removeServer id (.error e) st = st := by
  have hsel : (removeServer id (.ok ()) st).selectedServerId =
      (if st.selectedServerId = some id then
        (st.servers.filter (fun s => s.id != id)).head?.map (fun s => s.id)
      else st.selectedServerId) := rfl
  refine ⟨?_, ?_, ?_, rfl⟩
  · intro s hs
    have hs' : s ∈ st.servers.filter (fun s => s.id != id) := hs
    have h := (List.mem_filter.mp hs').2
    simpa [bne_iff_ne] using h
  · intro h
    rw [hsel, if_pos h]
  · intro h
    rw [hsel, if_neg h]

theorem removeServer_spec_witness :
    (removeServer "a" (.ok ()) { stA with selectedServerId := some "a" }).selectedServerId =
      none := by
  have h := (removeServer_spec "a" "x" { stA with selectedServerId := some "a" }).2.1 rfl
  exact h.trans (by decide)

theorem autoConnectGo_succ (results : String → Except String Unit)
    (i n : Nat) (st : ServersState) :
    autoConnectGo results i (n + 1) st =
      match st.servers[i]? with
      | none => autoConnectGo results (i + 1) n st
      | some s =>
        if s.enabled && statusFresh s.status then
          let p := connectServer s.id (results s.id) st
          let q := autoConnectGo results (i + 1) n p.1
          (q.1, p.2 ++ q.2)
        else autoConnectGo results (i + 1) n st := rfl

theorem autoConnectGo_calls (results : String → Except String Unit)
    (l : List ServerConfig)
    (hfresh : ∀ s ∈ l, s.status = none ∨ s.status = some "disconnected") :
    ∀ (n i : Nat) (st : ServersState), i + n = l.length →
      (∀ j, i ≤ j → st.servers[j]? = l[j]?) →
      (autoConnectGo results i n st).2 =
        ((l.drop i).filter (fun s => s.enabled)).map (fun s => s.id) := by
  intro n
  induction n with
  | zero =>
    intro i st hlen _
    have hi : i = l.length := by omega
    simp [autoConnectGo, hi, List.drop_length]
  | succ n ih =>
    intro i st hlen hagree
    have hi : i < l.length := by omega
    have hli : l[i]? = some (l.get ⟨i, hi⟩) := by
      rw [List.getElem?_eq_getElem hi]
      rfl
    have hmem : l.get ⟨i, hi⟩ ∈ l := List.get_mem l i hi
    have hfr : statusFresh (l.get ⟨i, hi⟩).status = true := by
      rcases hfresh _ hmem with h | h <;> rw [h] <;> decide
    have hsi : st.servers[i]? = some (l.get ⟨i, hi⟩) := by
      rw [hagree i (Nat.le_refl i), hli]
    rw [autoConnectGo_succ, hsi]
    dsimp only
    rw [hfr, Bool.and_true]
    cases hen : (l.get ⟨i, hi⟩).enabled
    · rw [if_neg (by simp [hen])]
      rw [ih (i + 1) st (by omega) (fun j hj => hagree j (by omega))]
      rw [List.drop_eq_getElem_cons hi,
        List.filter_cons_of_neg (by simpa using hen)]
    · rw [if_pos (by simp [hen])]
      have hag2 : ∀ j, i + 1 ≤ j →
          (connectServer (l.get ⟨i, hi⟩).id
            (results (l.get ⟨i, hi⟩).id) st).1.servers[j]? = l[j]? := by
        intro j hj
        obtain ⟨v, _, hsv⟩ :=
          connectServer_servers_eq (l.get ⟨i, hi⟩).id
            (results (l.get ⟨i, hi⟩).id) st
        rw [hsv,
          getElem?_updateFirst_stable _ _ st.servers j i (by omega)
            (by rw [hsi]; simp)]
        exact hagree j (by omega)
      dsimp only
      rw [ih (i + 1) _ (by omega) hag2, connectServer_calls,
        List.drop_eq_getElem_cons hi,
        List.filter_cons_of_pos (by simpa using hen), List.map_cons]
      rfl

theorem count_id_filter_enabled :
    ∀ l : List ServerConfig, (l.map (fun s => s.id)).Nodup →
      ∀ s ∈ l, ((l.filter (fun s => s.enabled)).map (fun s => s.id)).count s.id =
        if s.enabled then 1 else 0 := by
  intro l
  induction l with
  | nil => intro _ s hs; cases hs
  | cons x xs ih =>
    intro hnodup s hs
    rw [List.map_cons, List.nodup_cons] at hnodup
    have hnotin : x.id ∉ (xs.filter (fun t => t.enabled)).map (fun t => t.id) := by
      intro hmem
      apply hnodup.1
      rcases List.mem_map.mp hmem with ⟨t, ht, hid⟩
      exact List.mem_map.mpr ⟨t, (List.mem_filter.mp ht).1, hid⟩
    rcases List.mem_cons.mp hs with rfl | hs'
    · cases hen : s.enabled
      · rw [List.filter_cons_of_neg (by simpa using hen)]
        simp [List.count_eq_zero_of_not_mem hnotin, hen]
      · rw [List.filter_cons_of_pos (by simpa using hen), List.map_cons,
          List.count_cons_self, List.count_eq_zero_of_not_mem hnotin]
        simp [hen]
    · have hne : s.id ≠ x.id := by
        intro h
        apply hnodup.1
        rw [← h]
        exact List.mem_map.mpr ⟨s, hs', rfl⟩
      cases hen : x.enabled
      · rw [List.filter_cons_of_neg (by simpa using hen)]
        exact ih hnodup.2 s hs'
      · rw [List.filter_cons_of_pos (by simpa using hen), List.map_cons,
          List.count_cons_of_ne hne]
        exact ih hnodup.2 s hs'

/-- C6: starting from a process-start state — every server's status absent or
`disconnected`, server ids distinct — `autoConnectServers` issues the connect
invocations for exactly the enabled servers, in order: one call for every
enabled server and none for any non-enabled one. -/
theorem autoConnectServers_calls (results : String → Except String Unit)
    (st : ServersState)
    (hfresh : ∀ s ∈ st.servers, s.status = none ∨ s.status = some "disconnected")
    (hnodup : (st.servers.map (fun s => s.id)).Nodup) :
    (autoConnectServers results st).2 =
      (st.servers.filter (fun s => s.enabled)).map (fun s => s.id) ∧
    ∀ s ∈ st.servers,
      (autoConnectServers results st).2.count s.id = if s.enabled then 1 else 0 := by
  have hmain : (autoConnectServers results st).2 =
      (st.servers.filter (fun s => s.enabled)).map (fun s => s.id) := by
    have h := autoConnectGo_calls results st.servers hfresh st.servers.length 0 st
      (by omega) (fun j _ => rfl)
    simpa [autoConnectServers] using h
  refine ⟨hmain, fun s hs => ?_⟩
  rw [hmain]
  exact count_id_filter_enabled st.servers hnodup s hs

/-- A sample disabled server used by concrete witnesses. -/
def cfgB : ServerConfig :=
  { id := "b", name := "Server B", enabled := false, status := some "disconnected" }

/-- A two-server store state used by concrete witnesses. -/
def stAB : ServersState :=
  { servers := [cfgA, cfgB], selectedServerId := none,
    lastError := fun _ => none, oauthStatus := fun _ => none }

theorem autoConnectServers_calls_witness :
    (autoConnectServers (fun _ => .ok ()) stAB).2 = ["a"] := by
  have h := autoConnectServers_calls (fun _ => .ok ()) stAB (by decide) (by decide)
  exact h.1.trans (by decide)

theorem mem_updateFirst {α : Type} (p : α → Bool) (f : α → α) :
    ∀ (l : List α) (a : α), a ∈ updateFirst p f l → a ∈ l ∨ ∃ b ∈ l, a = f b := by
  intro l
  induction l with
  | nil => intro a ha; cases ha
  | cons x xs ih =>
    intro a ha
    cases hx : p x
    · have h1 : updateFirst p f (x :: xs) = x :: updateFirst p f xs := by
        simp [updateFirst, hx]
      rw [h1] at ha
      rcases List.mem_cons.mp ha with rfl | h
      · exact Or.inl (List.mem_cons_self _ _)
      · rcases ih a h with h2 | ⟨b, hb, rfl⟩
        · exact Or.inl (List.mem_cons_of_mem _ h2)
        · exact Or.inr ⟨b, List.mem_cons_of_mem _ hb, rfl⟩
    · have h1 : updateFirst p f (x :: xs) = f x :: xs := by
        simp [updateFirst, hx]
      rw [h1] at ha
      rcases List.mem_cons.mp ha with rfl | h
      · exact Or.inr ⟨x, List.mem_cons_self _ _, rfl⟩
      · exact Or.inl (List.mem_cons_of_mem _ h)

theorem statusWF_updateFirst (l : List ServerConfig) (id v : String)
    (hv : validStatusStr v = true)
    (h : ∀ s ∈ l, Option.all validStatusStr s.status = true) :
    ∀ s ∈ updateFirst (fun t => t.id == id) (setStatus v) l,
      Option.all validStatusStr s.status = true := by
  intro s hs
  rcases mem_updateFirst _ _ l s hs with h1 | ⟨b, _, rfl⟩
  · exact h s h1
  · simpa [setStatus] using hv

theorem connectServer_preserves_wf (id : String) (r : Except String Unit)
    (st : ServersState) (h : statusWF st) : statusWF (connectServer id r st).1 := by
  obtain ⟨v, hv, hsv⟩ := connectServer_servers_eq id r st
  intro t ht
  rw [hsv] at ht
  exact statusWF_updateFirst st.servers id v hv h t ht

theorem autoConnectGo_preserves_wf (results : String → Except String Unit) :
    ∀ (n i : Nat) (st : ServersState), statusWF st →
      statusWF (autoConnectGo results i n st).1 := by
  intro n
  induction n with
  | zero => intro i st h; exact h
  | succ n ih =>
    intro i st h
    rw [autoConnectGo_succ]
    cases hsi : st.servers[i]? with
    | none => exact ih (i + 1) st h
    | some s =>
      dsimp only
      by_cases hc : (s.enabled && statusFresh s.status) = true
      · rw [if_pos hc]
        exact ih (i + 1) _ (connectServer_preserves_wf s.id (results s.id) st h)
      · rw [if_neg hc]
        exact ih (i + 1) st h

theorem storeStep_preserves_wf {st st' : ServersState}
    (h : StoreStep st st') (hwf : statusWF st) : statusWF st' := by
  cases h with
  | connect id r st => exact connectServer_preserves_wf id r st hwf
  | auto results st => exact autoConnectGo_preserves_wf results st.servers.length 0 st hwf
  | disconnect r st => exact hwf
  | load r st h =>
    cases r with
    | error e => exact hwf
    | ok l =>
      intro s hs
      exact h l rfl s hs
  | add r cr st h =>
    cases r with
    | error e => exact hwf
    | ok server =>
      apply connectServer_preserves_wf
      intro s hs
      have hs' : s ∈ st.servers ++ [server] := hs
      rcases List.mem_append.mp hs' with h1 | h1
      · exact hwf s h1
      · rw [List.mem_singleton.mp h1]
        exact h server rfl
  | update id r st h =>
    cases r with
    | error e => exact hwf
    | ok u =>
      intro s hs
      have hs' : s ∈ updateFirst (fun t => t.id == id) (fun _ => u) st.servers := hs
      rcases mem_updateFirst _ _ st.servers s hs' with h1 | ⟨b, _, rfl⟩
      · exact hwf s h1
      · exact h _ rfl
  | remove id r st =>
    cases r with
    | error e => exact hwf
    | ok u =>
      intro s hs
      have hs' : s ∈ st.servers.filter (fun t => t.id != id) := hs
      exact hwf s (List.mem_filter.mp hs').1
  | select id st => exact hwf
  | oauth id r st =>
    cases r with
    | error e => exact hwf
    | ok u => exact hwf
  | updateStatus id v st h => exact statusWF_updateFirst st.servers id v h hwf
  | err id e st => exact hwf
  | clearErr id st => exact hwf
  | setOAuth id v st => exact hwf
  | clearOAuth id st => exact hwf
  | clearTokens id r st =>
    cases r with
    | error e => exact hwf
    | ok u => exact hwf

/-- C9: in every state reachable through the store's operations from a state
whose stored statuses are well-formed, every server's observable status
(`server.status ?? 'disconnected'`) is exactly one of the five defined runtime
states — never undefined and never anything else. -/
theorem reachable_status_defined (st st' : ServersState) (hwf : statusWF st)
    (hsteps : Relation.ReflTransGen StoreStep st st') :
    ∀ s ∈ st'.servers, validStatusStr (displayedStatus s) = true := by
  have hwf' : statusWF st' := by
    induction hsteps with
    | refl => exact hwf
    | tail hab hbc ih => exact storeStep_preserves_wf hbc ih
  intro s hs
  cases hstat : s.status with
  | none =>
    have hd : displayedStatus s = "disconnected" := by
      unfold displayedStatus; rw [hstat]; rfl
    rw [hd]; decide
  | some v =>
    have hd : displayedStatus s = v := by
      unfold displayedStatus; rw [hstat]; rfl
    have hv := hwf' s hs
    rw [hstat] at hv
    rw [hd]
    exact hv

theorem reachable_status_defined_witness :
    validStatusStr (displayedStatus { cfgA with status := some "connecting" }) = true :=
  reachable_status_defined stA (connectServer "a" (.ok ()) stA).1
    (by intro s hs; rw [List.mem_singleton.mp hs]; rfl)
    (Relation.ReflTransGen.single (StoreStep.connect "a" (.ok ()) stA))
    { cfgA with status := some "connecting" } (by decide)

end AgentHub
